import Mathlib

/-!
Verification of the scraping-tools repository's browser scripts
(`instagram_unfollows.js` and the identical
`instagram_unfollowers_checker_educational_tool.js`) against the spec.

Shallow embedding:
* a DOM element is `DomElem` (its `href` attribute, `none` when absent);
* the time-varying DOM seen by `waitForElement` is a function
  `Nat → Option DomElem`: sample `k` is the result of
  `document.querySelector(selector)` at the k-th `setInterval` callback
  (the script's `elapsed` variable equals `k * 100` at sample `k`);
* `extractUsernames`, the comparison step of `findNotFollowingBack`, and the
  staged run are embedded as pure functions / `Except` computations.
-/

/-- A DOM anchor element as the scripts observe it: `getAttribute('href')`
returns `null` (`none`) or a string. -/
structure DomElem where
  href : Option String
deriving DecidableEq

/-- The rejection string built by `waitForElement`:
`Element ${selector} not found within ${timeout}ms.` -/
def timeoutMessage (selector : String) (timeout : Nat) : String :=
  "Element " ++ selector ++ " not found within " ++ toString timeout ++ "ms."

/-- The `setInterval` loop of `waitForElement`. At each callback the script
first queries the DOM (`dom k`); a found element resolves immediately.
Otherwise it rejects when `elapsed >= timeout`, i.e. when `k * 100 ≥ timeout`;
the first such `k` is `⌈timeout / 100⌉`, so `budget` counts the callbacks
still allowed to continue: `budget = ⌈timeout / 100⌉ - k`. -/
def wfeGo (dom : Nat → Option DomElem) (msg : String) :
    Nat → Nat → Except String DomElem
  | budget, k =>
    match dom k with
    | some e => .ok e
    | none =>
      match budget with
      | 0 => .error msg
      | b + 1 => wfeGo dom msg b (k + 1)

/-- Number of DOM samples the loop of `wfeGo` consults before settling. -/
def wfeChecks (dom : Nat → Option DomElem) : Nat → Nat → Nat
  | budget, k =>
    match dom k with
    | some _ => 1
    | none =>
      match budget with
      | 0 => 1
      | b + 1 => 1 + wfeChecks dom b (k + 1)

/-- `waitForElement(selector, timeout)` over the sampled DOM `dom`.
The interval is the script's fixed `100` ms; `(timeout + 99) / 100` is the
first callback index at which `elapsed ≥ timeout`. -/
def waitForElement (selector : String) (dom : Nat → Option DomElem)
    (timeout : Nat) : Except String DomElem :=
  wfeGo dom (timeoutMessage selector timeout) ((timeout + 99) / 100) 0

/-- Number of DOM samples `waitForElement` consults before settling. -/
def waitForElementChecks (dom : Nat → Option DomElem) (timeout : Nat) : Nat :=
  wfeChecks dom ((timeout + 99) / 100) 0

/-- JavaScript `href.slice(1, -1)`: the substring from index 1 to one before
the end (empty when the string has at most 2 characters). -/
def sliceOneNegOne (s : String) : String :=
  String.mk ((s.data.drop 1).dropLast)

/-- `extractUsernames(elements)`: map each element to
`href ? href.slice(1,-1) : null` (an empty `href` is falsy, hence `null`),
then `filter((username) => username)` keeps the strings that are neither
`null` nor empty. -/
def extractUsernames (elements : List DomElem) : List String :=
  (elements.map fun item =>
    match item.href with
    | some href => if href = "" then none else some (sliceOneNegOne href)
    | none => none).filterMap fun v =>
      match v with
      | some u => if u = "" then none else some u
      | none => none

/-- Worker for `dedupFirst`: `seen` holds the values already emitted,
mirroring the insertion-order semantics of a JavaScript `Set`. -/
def dedupFirstAux (seen : List String) : List String → List String
  | [] => []
  | x :: xs =>
    if seen.contains x then dedupFirstAux seen xs
    else x :: dedupFirstAux (x :: seen) xs

/-- `[...new Set(l)]`: removes duplicates keeping the first occurrence of
each value, in order. -/
def dedupFirst (l : List String) : List String :=
  dedupFirstAux [] l

/-- The comparison step of `findNotFollowingBack`:
`[...new Set(following.filter((u) => !followers.includes(u)))]`. -/
def notFollowingBackList (followers following : List String) : List String :=
  dedupFirst (following.filter fun u => !(followers.contains u))

/-- The follow-diff report of the spec's `FollowGraphComparator`. -/
structure FollowDiffReport where
  notFollowingBack : List String
  notFollowedBack : List String

/-- Modelled from the spec: `FollowGraphComparator.diff`. The source's
`findNotFollowingBack` computes only the `notFollowingBack` component
(embedded as `notFollowingBackList`); the `notFollowedBack` component is
absent from the source and is modelled from the spec's
`followers − following` with the same comparison step applied to the
swapped roles. -/
def followDiff (followers following : List String) : FollowDiffReport :=
  { notFollowingBack := notFollowingBackList followers following
    notFollowedBack := dedupFirst (followers.filter fun u => !(following.contains u)) }

/-- Selector for the followers button: `a[href*="/followers/"]`. -/
def followersButtonSelector : String := "a[href*=\"/followers/\"]"

/-- Selector for the following button: `a[href*="/following/"]`. -/
def followingButtonSelector : String := "a[href*=\"/following/\"]"

/-- Selector for the user links inside the dialog:
`div[role="dialog"] div[role="button"] a[role="link"]`. -/
def dialogLinkSelector : String :=
  "div[role=\"dialog\"] div[role=\"button\"] a[role=\"link\"]"

/-- The external world a run of `findNotFollowingBack` observes: one sampled
DOM per `waitForElement` call (button clicks only affect later stages, which
is reflected by the later stages having their own sample streams), and the
two `querySelectorAll` snapshots. -/
structure RunEnv where
  followersButtonDom : Nat → Option DomElem
  followersDialogDom : Nat → Option DomElem
  followingButtonDom : Nat → Option DomElem
  followingDialogDom : Nat → Option DomElem
  followersList : List DomElem
  followingList : List DomElem

/-- `findNotFollowingBack`: awaits the four `waitForElement` stages in order
(a rejected promise throws, is caught by the `try`/`catch`, and the run
produces an error instead of a result), extracts the two username lists and
returns the deduplicated comparison. All calls use the default
`timeout = 10000`. -/
def findNotFollowingBack (env : RunEnv) : Except String (List String) := do
  let _followersButton ← waitForElement followersButtonSelector env.followersButtonDom 10000
  let _ ← waitForElement dialogLinkSelector env.followersDialogDom 10000
  let followersUsernames := extractUsernames env.followersList
  let _followingButton ← waitForElement followingButtonSelector env.followingButtonDom 10000
  let _ ← waitForElement dialogLinkSelector env.followingDialogDom 10000
  let followingUsernames := extractUsernames env.followingList
  pure (notFollowingBackList followersUsernames followingUsernames)

/-- Modelled from the spec: `RateLimitTracker`'s quota snapshot
(`RateLimitState`). No implementation exists under `src/`; the fields are
the spec's `remainingCalls` and `resetEpochSeconds`. -/
structure RateLimitState where
  remainingCalls : Nat
  resetEpochSeconds : Int

/-- Modelled from the spec: `RateLimitTracker.shouldWait()` — "if
remainingCalls > 0, zero; otherwise, resetEpochSeconds − now, floored at
zero". No implementation exists under `src/`. -/
def shouldWait (s : RateLimitState) (now : Int) : Int :=
  if 0 < s.remainingCalls then 0 else max (s.resetEpochSeconds - now) 0

/-! ### Helper lemmas: deduplication -/

theorem contains_iff_mem (l : List String) (a : String) :
    l.contains a = true ↔ a ∈ l :=
  List.elem_iff

theorem mem_dedupFirstAux (a : String) (l : List String) :
    ∀ seen, a ∈ dedupFirstAux seen l ↔ a ∈ l ∧ a ∉ seen := by
  induction l with
  | nil => intro seen; simp [dedupFirstAux]
  | cons x xs ih =>
    intro seen
    cases hc : seen.contains x with
    | true =>
      have hx : x ∈ seen := (contains_iff_mem seen x).1 hc
      have hunfold : dedupFirstAux seen (x :: xs) = dedupFirstAux seen xs := by
        simp [dedupFirstAux, hx]
      rw [hunfold, ih seen]
      constructor
      · rintro ⟨h1, h2⟩
        exact ⟨List.mem_cons_of_mem _ h1, h2⟩
      · rintro ⟨h1, h2⟩
        rcases List.mem_cons.1 h1 with rfl | h1
        · exact absurd hx h2
        · exact ⟨h1, h2⟩
    | false =>
      have hx : x ∉ seen := by
        intro hmem
        rw [(contains_iff_mem seen x).2 hmem] at hc
        exact Bool.noConfusion hc
      have hunfold : dedupFirstAux seen (x :: xs) =
          x :: dedupFirstAux (x :: seen) xs := by
        simp [dedupFirstAux, hx]
      rw [hunfold, List.mem_cons, ih (x :: seen)]
      constructor
      · rintro (rfl | ⟨h1, h2⟩)
        · exact ⟨List.mem_cons_self a xs, hx⟩
        · exact ⟨List.mem_cons_of_mem _ h1,
            fun hs => h2 (List.mem_cons_of_mem _ hs)⟩
      · rintro ⟨h1, h2⟩
        rcases List.mem_cons.1 h1 with rfl | h1
        · exact Or.inl rfl
        · rcases eq_or_ne a x with rfl | hax
          · exact Or.inl rfl
          · exact Or.inr ⟨h1, fun hs => (List.mem_cons.1 hs).elim hax h2⟩

theorem nodup_dedupFirstAux (l : List String) :
    ∀ seen, (dedupFirstAux seen l).Nodup := by
  induction l with
  | nil => intro seen; simp [dedupFirstAux]
  | cons x xs ih =>
    intro seen
    cases hc : seen.contains x with
    | true =>
      have hx : x ∈ seen := (contains_iff_mem seen x).1 hc
      have hunfold : dedupFirstAux seen (x :: xs) = dedupFirstAux seen xs := by
        simp [dedupFirstAux, hx]
      rw [hunfold]
      exact ih seen
    | false =>
      have hx : x ∉ seen := by
        intro hmem
        rw [(contains_iff_mem seen x).2 hmem] at hc
        exact Bool.noConfusion hc
      have hunfold : dedupFirstAux seen (x :: xs) =
          x :: dedupFirstAux (x :: seen) xs := by
        simp [dedupFirstAux, hx]
      rw [hunfold]
      refine List.nodup_cons.2 ⟨?_, ih (x :: seen)⟩
      intro hmem
      exact ((mem_dedupFirstAux x xs (x :: seen)).1 hmem).2
        (List.mem_cons_self x seen)

theorem mem_dedupFirst (a : String) (l : List String) :
    a ∈ dedupFirst l ↔ a ∈ l := by
  rw [dedupFirst, mem_dedupFirstAux]
  simp

theorem nodup_dedupFirst (l : List String) : (dedupFirst l).Nodup :=
  nodup_dedupFirstAux l []

/-! ### Helper lemmas: the comparison step -/

theorem mem_notFollowingBackList (a : String) (F G : List String) :
    a ∈ notFollowingBackList F G ↔ a ∈ G ∧ a ∉ F := by
  rw [notFollowingBackList, mem_dedupFirst, List.mem_filter]
  constructor
  · rintro ⟨h1, h2⟩
    refine ⟨h1, fun hmem => ?_⟩
    rw [(contains_iff_mem F a).2 hmem] at h2
    simp at h2
  · rintro ⟨h1, h2⟩
    refine ⟨h1, ?_⟩
    have hfc : F.contains a = false := by
      cases hfc : F.contains a
      · rfl
      · exact absurd ((contains_iff_mem F a).1 hfc) h2
    show (!F.contains a) = true
    rw [hfc]
    rfl

theorem toFinset_notFollowingBackList (F G : List String) :
    (notFollowingBackList F G).toFinset = G.toFinset \ F.toFinset := by
  ext a
  simp [List.mem_toFinset, Finset.mem_sdiff, mem_notFollowingBackList]

/-! ### Helper lemmas: the polling loop -/

theorem wfeGo_error_of_none (dom : Nat → Option DomElem) (msg : String)
    (h : ∀ j, dom j = none) : ∀ b k, wfeGo dom msg b k = .error msg := by
  intro b
  induction b with
  | zero => intro k; simp [wfeGo, h k]
  | succ b ih => intro k; simp [wfeGo, h k, ih (k + 1)]

theorem wfeGo_ok_of_first (dom : Nat → Option DomElem) (msg : String)
    (e : DomElem) :
    ∀ b k₀ k, k₀ ≤ k → k ≤ k₀ + b → (∀ j, k₀ ≤ j → j < k → dom j = none) →
      dom k = some e → wfeGo dom msg b k₀ = .ok e := by
  intro b
  induction b with
  | zero =>
    intro k₀ k h1 h2 h3 h4
    have hk : k = k₀ := by omega
    subst hk
    simp [wfeGo, h4]
  | succ b ih =>
    intro k₀ k h1 h2 h3 h4
    rcases eq_or_lt_of_le h1 with rfl | hlt
    · simp [wfeGo, h4]
    · have hk0 : dom k₀ = none := h3 k₀ le_rfl hlt
      have hstep : wfeGo dom msg (b + 1) k₀ = wfeGo dom msg b (k₀ + 1) := by
        simp [wfeGo, hk0]
      rw [hstep]
      exact ih (k₀ + 1) k hlt (by omega)
        (fun j hj1 hj2 => h3 j (by omega) hj2) h4

theorem wfeGo_ok_exists (dom : Nat → Option DomElem) (msg : String) :
    ∀ b k e, wfeGo dom msg b k = .ok e → ∃ j, dom j = some e := by
  intro b
  induction b with
  | zero =>
    intro k e h
    cases hd : dom k with
    | none =>
      have hstep : wfeGo dom msg 0 k = .error msg := by simp [wfeGo, hd]
      rw [hstep] at h
      exact Except.noConfusion h
    | some e' =>
      have hstep : wfeGo dom msg 0 k = .ok e' := by simp [wfeGo, hd]
      rw [hstep] at h
      have he : e' = e := by injection h
      exact ⟨k, by rw [hd, he]⟩
  | succ b ih =>
    intro k e h
    cases hd : dom k with
    | none =>
      have hstep : wfeGo dom msg (b + 1) k = wfeGo dom msg b (k + 1) := by
        simp [wfeGo, hd]
      rw [hstep] at h
      exact ih (k + 1) e h
    | some e' =>
      have hstep : wfeGo dom msg (b + 1) k = .ok e' := by simp [wfeGo, hd]
      rw [hstep] at h
      have he : e' = e := by injection h
      exact ⟨k, by rw [hd, he]⟩

theorem wfeChecks_pos (dom : Nat → Option DomElem) (b k : Nat) :
    1 ≤ wfeChecks dom b k := by
  cases b <;> cases hd : dom k <;> simp [wfeChecks, hd]

theorem wfeGo_congr (dom dom₂ : Nat → Option DomElem) (msg : String) :
    ∀ b k, (∀ j, k ≤ j → j < k + wfeChecks dom b k → dom₂ j = dom j) →
      wfeGo dom₂ msg b k = wfeGo dom msg b k := by
  intro b
  induction b with
  | zero =>
    intro k h
    have hk : dom₂ k = dom k :=
      h k le_rfl (by have := wfeChecks_pos dom 0 k; omega)
    cases hd : dom k with
    | none => simp [wfeGo, hd, hk]
    | some e => simp [wfeGo, hd, hk]
  | succ b ih =>
    intro k h
    have hk : dom₂ k = dom k :=
      h k le_rfl (by have := wfeChecks_pos dom (b + 1) k; omega)
    cases hd : dom k with
    | some e => simp [wfeGo, hd, hk]
    | none =>
      have hch : wfeChecks dom (b + 1) k = 1 + wfeChecks dom b (k + 1) := by
        simp [wfeChecks, hd]
      have h1 : wfeGo dom msg (b + 1) k = wfeGo dom msg b (k + 1) := by
        simp [wfeGo, hd]
      have hd2 : dom₂ k = none := hk.trans hd
      have h2 : wfeGo dom₂ msg (b + 1) k = wfeGo dom₂ msg b (k + 1) := by
        simp [wfeGo, hd2]
      rw [h1, h2]
      exact ih (k + 1) fun j hj1 hj2 => h j (by omega) (by rw [hch]; omega)

/-! ### Helper lemmas: first-occurrence order -/

theorem pairwise_indexOf_dedupFirstAux (G : List String) :
    ∀ (p : String → Bool) (seen : List String),
      ((dedupFirstAux seen (G.filter p)).Pairwise
        fun a b => G.indexOf a < G.indexOf b) := by
  induction G with
  | nil => intro p seen; simp [dedupFirstAux]
  | cons x G ihG =>
    intro p seen
    have lift : ∀ l : List String, (∀ a ∈ l, a ≠ x) →
        (l.Pairwise fun a b => G.indexOf a < G.indexOf b) →
        (l.Pairwise fun a b => (x :: G).indexOf a < (x :: G).indexOf b) := by
      intro l hne hpw
      refine hpw.imp_of_mem ?_
      intro a b ha hb hab
      rw [List.indexOf_cons_ne G (Ne.symm (hne a ha)),
        List.indexOf_cons_ne G (Ne.symm (hne b hb))]
      exact Nat.succ_lt_succ hab
    cases hp : p x with
    | false =>
      have hfilter : (x :: G).filter p = G.filter p := by
        simp [List.filter_cons, hp]
      rw [hfilter]
      refine lift _ ?_ (ihG p seen)
      intro a ha
      have hmem := (mem_dedupFirstAux a (G.filter p) seen).1 ha
      have hpa : p a = true := (List.mem_filter.1 hmem.1).2
      intro hax
      rw [hax, hp] at hpa
      exact Bool.noConfusion hpa
    | true =>
      have hfilter : (x :: G).filter p = x :: G.filter p := by
        simp [List.filter_cons, hp]
      rw [hfilter]
      cases hc : seen.contains x with
      | true =>
        have hx : x ∈ seen := (contains_iff_mem seen x).1 hc
        have hunfold : dedupFirstAux seen (x :: G.filter p) =
            dedupFirstAux seen (G.filter p) := by
          simp [dedupFirstAux, hx]
        rw [hunfold]
        refine lift _ ?_ (ihG p seen)
        intro a ha
        have hmem := (mem_dedupFirstAux a (G.filter p) seen).1 ha
        exact fun hax => hmem.2 (by rw [hax]; exact hx)
      | false =>
        have hx : x ∉ seen := by
          intro hmem
          rw [(contains_iff_mem seen x).2 hmem] at hc
          exact Bool.noConfusion hc
        have hunfold : dedupFirstAux seen (x :: G.filter p) =
            x :: dedupFirstAux (x :: seen) (G.filter p) := by
          simp [dedupFirstAux, hx]
        rw [hunfold]
        refine List.pairwise_cons.2 ⟨?_, ?_⟩
        · intro b hb
          have hmem := (mem_dedupFirstAux b (G.filter p) (x :: seen)).1 hb
          have hbx : b ≠ x := fun hbe =>
            hmem.2 (by rw [hbe]; exact List.mem_cons_self x seen)
          rw [List.indexOf_cons_self, List.indexOf_cons_ne G (Ne.symm hbx)]
          exact Nat.succ_pos _
        · refine lift _ ?_ (ihG p (x :: seen))
          intro a ha
          have hmem := (mem_dedupFirstAux a (G.filter p) (x :: seen)).1 ha
          exact fun hax =>
            hmem.2 (by rw [hax]; exact List.mem_cons_self x seen)

theorem pairwise_indexOf_notFollowingBackList (F G : List String) :
    ((notFollowingBackList F G).Pairwise
      fun a b => G.indexOf a < G.indexOf b) :=
  pairwise_indexOf_dedupFirstAux G (fun u => !(F.contains u)) []

/-! ### Claims -/

/-- C1: for all non-empty username sets F (followers) and G (following), the
follow-graph comparison returns `notFollowingBack` equal to the set
difference G − F and `notFollowedBack` equal to the set difference F − G,
and `diff(F,F)` yields two empty sets. -/
theorem followDiff_set_difference (F G : List String)
    (hF : F ≠ []) (hG : G ≠ []) :
    ((followDiff F G).notFollowingBack.toFinset = G.toFinset \ F.toFinset ∧
      (followDiff F G).notFollowedBack.toFinset = F.toFinset \ G.toFinset) ∧
    ((followDiff F F).notFollowingBack = [] ∧
      (followDiff F F).notFollowedBack = []) := by
  have hself : ∀ H : List String, notFollowingBackList H H = [] := by
    intro H
    have hfil : (H.filter fun u => !(H.contains u)) = [] := by
      refine List.filter_eq_nil_iff.2 fun a ha => ?_
      rw [(contains_iff_mem H a).2 ha]
      decide
    rw [notFollowingBackList, hfil]
    rfl
  refine ⟨⟨?_, ?_⟩, ?_, ?_⟩
  · exact toFinset_notFollowingBackList F G
  · show (notFollowingBackList G F).toFinset = _
    exact toFinset_notFollowingBackList G F
  · exact hself F
  · show notFollowingBackList F F = []
    exact hself F

/-- Witness for C1 at concrete inputs. -/
theorem followDiff_set_difference_witness :
    (((followDiff ["a"] ["b"]).notFollowingBack.toFinset =
        (["b"] : List String).toFinset \ (["a"] : List String).toFinset ∧
      (followDiff ["a"] ["b"]).notFollowedBack.toFinset =
        (["a"] : List String).toFinset \ (["b"] : List String).toFinset) ∧
    ((followDiff ["a"] ["a"]).notFollowingBack = [] ∧
      (followDiff ["a"] ["a"]).notFollowedBack = [])) :=
  followDiff_set_difference ["a"] ["b"] (by decide) (by decide)

/-- C2: the follow-graph comparison is symmetric under swapping the two
input roles: `diff(F,G).notFollowingBack = diff(G,F).notFollowedBack`. -/
theorem followDiff_swap_symm (F G : List String) :
    (followDiff F G).notFollowingBack = (followDiff G F).notFollowedBack :=
  rfl

/-- C3: the comparison treats usernames case-sensitively and exactly as
provided: membership is decided by exact string equality, so a username in
the following list whose only case-variant appears in the followers list is
reported as not following back. -/
theorem notFollowingBack_case_sensitive :
    (∀ (F G : List String) (u : String), u ∈ G → u ∉ F →
        u ∈ notFollowingBackList F G) ∧
    notFollowingBackList ["alice"] ["Alice"] = ["Alice"] := by
  constructor
  · intro F G u h1 h2
    exact (mem_notFollowingBackList u F G).2 ⟨h1, h2⟩
  · decide

/-- Witness for C3: "Alice" is reported even though "alice" follows. -/
theorem notFollowingBack_case_sensitive_witness :
    "Alice" ∈ notFollowingBackList ["alice"] ["Alice"] :=
  notFollowingBack_case_sensitive.1 ["alice"] ["Alice"] "Alice"
    (by decide) (by decide)

/-- C4: the comparison step is deterministic with no hidden evaluation-order
dependency: recomputation of the pure function is definitionally identical,
and, the outputs being sets, they depend only on the input sets — inputs
equal as sets give outputs equal as sets. -/
theorem notFollowingBack_deterministic (F₁ G₁ F₂ G₂ : List String)
    (hF : F₁.toFinset = F₂.toFinset) (hG : G₁.toFinset = G₂.toFinset) :
    (followDiff F₁ G₁).notFollowingBack.toFinset =
      (followDiff F₂ G₂).notFollowingBack.toFinset ∧
    (followDiff F₁ G₁).notFollowedBack.toFinset =
      (followDiff F₂ G₂).notFollowedBack.toFinset := by
  constructor
  · show (notFollowingBackList F₁ G₁).toFinset =
      (notFollowingBackList F₂ G₂).toFinset
    rw [toFinset_notFollowingBackList, toFinset_notFollowingBackList, hF, hG]
  · show (notFollowingBackList G₁ F₁).toFinset =
      (notFollowingBackList G₂ F₂).toFinset
    rw [toFinset_notFollowingBackList, toFinset_notFollowingBackList, hF, hG]

/-- Witness for C4: inputs that are equal as sets but not as lists. -/
theorem notFollowingBack_deterministic_witness :
    (followDiff ["a", "a"] ["b", "b"]).notFollowingBack.toFinset =
      (followDiff ["a"] ["b"]).notFollowingBack.toFinset ∧
    (followDiff ["a", "a"] ["b", "b"]).notFollowedBack.toFinset =
      (followDiff ["a"] ["b"]).notFollowedBack.toFinset :=
  notFollowingBack_deterministic ["a", "a"] ["b", "b"] ["a"] ["b"]
    (by decide) (by decide)

/-- C5 (amended): `waitForElement` over DOM samples taken at the fixed 100ms
interval (the script's `elapsed` counter is `k * 100` at sample `k`) resolves
with the matched element at the first checked sample where the selector
condition holds; it rejects if the condition holds at no checked sample —
checking continues through the first sample at which `elapsed` has reached
the `timeout`, and the element check precedes the timeout check, so a match
at that final sample still resolves (see the counterexample to the original
wording); after resolving or rejecting no further samples are consulted. -/
theorem waitForElement_poll_spec (sel : String) (dom : Nat → Option DomElem)
    (timeout k : Nat) (e : DomElem) :
    ((∀ j, j < k → dom j = none) → (∀ j, j < k → j * 100 < timeout) →
        dom k = some e → waitForElement sel dom timeout = .ok e) ∧
    ((∀ j, dom j = none) →
        waitForElement sel dom timeout = .error (timeoutMessage sel timeout)) ∧
    (∀ dom₂, (∀ j, j < waitForElementChecks dom timeout → dom₂ j = dom j) →
        waitForElement sel dom₂ timeout = waitForElement sel dom timeout) := by
  unfold waitForElement waitForElementChecks
  refine ⟨?_, ?_, ?_⟩
  · intro h1 h2 h3
    refine wfeGo_ok_of_first dom _ e ((timeout + 99) / 100) 0 k (Nat.zero_le k)
      ?_ (fun j _ hj => h1 j hj) h3
    rcases Nat.eq_zero_or_pos k with rfl | hk
    · omega
    · have := h2 (k - 1) (by omega)
      omega
  · intro h
    exact wfeGo_error_of_none dom _ h _ 0
  · intro dom₂ h
    exact wfeGo_congr dom dom₂ _ _ 0 fun j _ hj2 => h j (by omega)

/-- Witness for C5 at concrete inputs: immediate resolution, rejection when
no sample ever matches, and stability under agreement on consulted
samples. -/
theorem waitForElement_poll_spec_witness :
    waitForElement "s" (fun _ => some ⟨some "/a/"⟩) 300 = .ok ⟨some "/a/"⟩ ∧
    waitForElement "s" (fun _ => none) 300 = .error (timeoutMessage "s" 300) ∧
    waitForElement "s" (fun _ => some ⟨some "/a/"⟩) 300 =
      waitForElement "s" (fun _ => some ⟨some "/a/"⟩) 300 := by
  have h := waitForElement_poll_spec "s" (fun _ => some ⟨some "/a/"⟩) 300 0
    ⟨some "/a/"⟩
  have h2 := waitForElement_poll_spec "s" (fun _ => none) 300 0 ⟨some "/a/"⟩
  exact ⟨h.1 (fun j hj => absurd hj (Nat.not_lt_zero j))
      (fun j hj => absurd hj (Nat.not_lt_zero j)) rfl,
    h2.2.1 (fun j => rfl),
    h.2.2 _ (fun j hj => rfl)⟩

/-- C5 counterexample to the original wording: with `timeout = 100` the only
sample taken while `elapsed < timeout` is sample 0, where the condition
fails, so "never satisfied before the elapsed time reaches the timeout"
holds; yet the call resolves with the element found at the boundary sample
(where `elapsed = timeout`), because the element check precedes the timeout
check — it does not reject. -/
theorem waitForElement_boundary_counterexample :
    (fun j => if j = 0 then none else some (⟨none⟩ : DomElem)) 0 = none ∧
    waitForElement "div" (fun j => if j = 0 then none else some ⟨none⟩) 100 =
      .ok ⟨none⟩ :=
  ⟨rfl, rfl⟩

/-- C6: a terminal failure of a stage (here: the followers-list dialog never
appearing within its timeout) aborts the run with that stage's error: the
run's result is that error, no comparison result is produced, and the
outcome does not depend on any later stage's inputs. -/
theorem findNotFollowingBack_abort_on_stage_error (env : RunEnv) (b : DomElem)
    (h1 : waitForElement followersButtonSelector env.followersButtonDom 10000 =
      .ok b)
    (h2 : ∀ j, env.followersDialogDom j = none) :
    findNotFollowingBack env =
      .error (timeoutMessage dialogLinkSelector 10000) ∧
    ∀ env₂ : RunEnv, env₂.followersButtonDom = env.followersButtonDom →
      env₂.followersDialogDom = env.followersDialogDom →
      findNotFollowingBack env₂ =
        .error (timeoutMessage dialogLinkSelector 10000) := by
  have herr : waitForElement dialogLinkSelector env.followersDialogDom 10000 =
      .error (timeoutMessage dialogLinkSelector 10000) :=
    wfeGo_error_of_none _ _ h2 _ 0
  constructor
  · simp [findNotFollowingBack, Bind.bind, Except.bind, h1, herr]
  · intro env₂ he1 he2
    simp [findNotFollowingBack, Bind.bind, Except.bind, he1, he2, h1, herr]

/-- A concrete run environment whose second stage times out. -/
def abortEnv : RunEnv :=
  { followersButtonDom := fun _ => some ⟨some "/followers/"⟩
    followersDialogDom := fun _ => none
    followingButtonDom := fun _ => none
    followingDialogDom := fun _ => none
    followersList := []
    followingList := [] }

/-- Witness for C6: a concrete environment whose second stage times out. -/
theorem findNotFollowingBack_abort_witness :
    findNotFollowingBack abortEnv =
      .error (timeoutMessage dialogLinkSelector 10000) :=
  (findNotFollowingBack_abort_on_stage_error abortEnv ⟨some "/followers/"⟩ rfl
    (fun j => rfl)).1

/-- C7: `RateLimitTracker.shouldWait()` returns zero whenever the last
observed `remainingCalls` is positive, regardless of `resetEpochSeconds`,
and returns `resetEpochSeconds − now` floored at zero whenever
`remainingCalls` is zero. -/
theorem shouldWait_spec (s : RateLimitState) (now : Int) :
    (0 < s.remainingCalls → shouldWait s now = 0) ∧
    (s.remainingCalls = 0 →
      shouldWait s now = max (s.resetEpochSeconds - now) 0) := by
  constructor
  · intro h
    simp [shouldWait, h]
  · intro h
    simp [shouldWait, h]

/-- Witness for C7 at concrete snapshots, one per branch. -/
theorem shouldWait_spec_witness :
    shouldWait ⟨5, 100⟩ 0 = 0 ∧
    shouldWait ⟨0, 100⟩ 30 = max ((100 : Int) - 30) 0 :=
  ⟨(shouldWait_spec ⟨5, 100⟩ 0).1 (by decide),
    (shouldWait_spec ⟨0, 100⟩ 30).2 rfl⟩

/-- The behaviour C8 ascribes to `extractUsernames`, stated from the claim's
words: keep, in input order, the elements whose `href` attribute is present,
form the string obtained by removing the first and the last character of
that `href`, and keep it only when the result is non-empty. -/
def extractUsernamesClaimed (elements : List DomElem) : List String :=
  elements.filterMap fun item =>
    match item.href with
    | some href =>
      if sliceOneNegOne href = "" then none else some (sliceOneNegOne href)
    | none => none

/-- C8: `extractUsernames` returns, in input order, exactly the strings
obtained by removing the first and the last character of each element's
`href`, keeping only elements whose `href` is present and whose resulting
string is non-empty; in particular an `href` lacking a trailing slash has
the final character of its username removed. -/
theorem extractUsernames_spec :
    (∀ elements, extractUsernames elements = extractUsernamesClaimed elements) ∧
    extractUsernames [⟨some "/john_doe"⟩] = ["john_do"] := by
  constructor
  · intro elements
    rw [extractUsernames, extractUsernamesClaimed, List.filterMap_map]
    congr 1
    funext item
    simp only [Function.comp]
    cases h : item.href with
    | none => rfl
    | some href =>
      by_cases he : href = ""
      · subst he
        rfl
      · simp only [if_neg he]
  · decide

/-- C9: the reported not-following-back result is duplicate-free — each
username occurs at most once — its members are exactly the usernames
followed but not following back, and it is ordered by first occurrence in
the following list. -/
theorem notFollowingBack_nodup_first_order (F G : List String) :
    (notFollowingBackList F G).Nodup ∧
    (∀ u, u ∈ notFollowingBackList F G ↔ u ∈ G ∧ u ∉ F) ∧
    ((notFollowingBackList F G).Pairwise
      fun a b => G.indexOf a < G.indexOf b) :=
  ⟨nodup_dedupFirst _, fun u => mem_notFollowingBackList u F G,
    pairwise_indexOf_notFollowingBackList F G⟩

/-- C10: whenever `waitForElement` resolves, the resolved value is an
element the DOM actually delivered at some consulted sample — the success
branch is reachable only under the non-null element check, so a successful
wait never hands the caller a null. -/
theorem waitForElement_resolves_nonnull (sel : String)
    (dom : Nat → Option DomElem) (timeout : Nat) (e : DomElem)
    (h : waitForElement sel dom timeout = .ok e) :
    ∃ k, dom k = some e :=
  wfeGo_ok_exists dom (timeoutMessage sel timeout) ((timeout + 99) / 100) 0 e h

/-- A constant sampled DOM that always delivers the same anchor element. -/
def constAnchorDom : Nat → Option DomElem := fun _ => some ⟨some "/a/"⟩

/-- Witness for C10 at a concrete immediately-resolving wait. -/
theorem waitForElement_resolves_nonnull_witness :
    ∃ k, constAnchorDom k = some ⟨some "/a/"⟩ :=
  waitForElement_resolves_nonnull "s" constAnchorDom 300 ⟨some "/a/"⟩ rfl
